import Mathlib

/-!
Verification of the content-repository component of the personal-blog
repository: the in-memory mock database service
(`src/services/mock-database.service.ts`) together with its data model
(`src/types`).  The TypeScript code is shallowly embedded: JavaScript
`Date` values are modelled by their observable projections (`getTime`,
`getFullYear`, `getMonth`), JavaScript truthiness tests on optional
numeric filters are made explicit, `Array.prototype.slice` gets its
ECMAScript index-clamping semantics, and `Array.prototype.sort` (stable
per ES2019 for a consistent comparator) is modelled by the stable
`List.insertionSort` on the comparator's underlying total preorder.
The faker-based data generator is modelled over an abstract generator
interface threaded in the exact call order of the source.
-/

namespace Blog

/-- A JavaScript `Date`, by the three observables the service uses:
`getTime()` (milliseconds), `getFullYear()` and `getMonth()` (0-indexed). -/
structure JsDate where
  time : Int
  year : Int
  month : Int
deriving DecidableEq, Repr

/-- The `social` block of an `Author` (src/types): all three handles optional. -/
structure Social where
  twitter : Option String
  linkedin : Option String
  github : Option String
deriving DecidableEq, Repr

/-- An `Author` record (src/types). -/
structure Author where
  id : String
  name : String
  bio : String
  avatar : String
  email : String
  social : Social
deriving DecidableEq, Repr

/-- A `Post` record (src/types). -/
structure Post where
  id : String
  title : String
  slug : String
  excerpt : String
  content : String
  coverImage : String
  publishedAt : JsDate
  authorId : String
  tags : List String
deriving DecidableEq, Repr

/-- Record `PostWithAuthor` (src/types): a `Post` with the author embedded. -/
structure PostWithAuthor where
  id : String
  title : String
  slug : String
  excerpt : String
  content : String
  coverImage : String
  publishedAt : JsDate
  authorId : String
  tags : List String
  author : Author
deriving DecidableEq, Repr

/-- The `{...post, author}` spread used by the service to resolve the author. -/
def withAuthor (a : Author) (p : Post) : PostWithAuthor :=
  { id := p.id, title := p.title, slug := p.slug, excerpt := p.excerpt,
    content := p.content, coverImage := p.coverImage,
    publishedAt := p.publishedAt, authorId := p.authorId, tags := p.tags,
    author := a }

/-- Forget the embedded author again (projection used only in statements). -/
def PostWithAuthor.toPost (pw : PostWithAuthor) : Post :=
  { id := pw.id, title := pw.title, slug := pw.slug, excerpt := pw.excerpt,
    content := pw.content, coverImage := pw.coverImage,
    publishedAt := pw.publishedAt, authorId := pw.authorId, tags := pw.tags }

/-- Type `SortOrder` (src/types). -/
inductive SortOrder where
  | asc
  | desc
deriving DecidableEq, Repr

/-- Record `PostFilters` (src/types); every field the code reads through `filters?.`
is optional here, since the whole `filters` object may be `undefined`. -/
structure PostFilters where
  search : Option String := none
  year : Option Int := none
  month : Option Int := none
  sortOrder : Option SortOrder := none
  page : Option Int := none
  perPage : Option Int := none
deriving DecidableEq, Repr

/-- The `PaginatedPosts` envelope (src/services/database.interface). -/
structure PaginatedPosts where
  posts : List PostWithAuthor
  total : Int
  page : Int
  perPage : Int
  totalPages : Int
deriving DecidableEq, Repr

/-- JavaScript `String.prototype.includes` on character lists. -/
def charsInclude (pat : List Char) : List Char → Bool
  | [] => pat.isEmpty
  | c :: rest => pat.isPrefixOf (c :: rest) || charsInclude pat rest

/-- JavaScript `hay.includes(pat)`. -/
def strIncludes (hay pat : String) : Bool :=
  charsInclude pat.data hay.data

/-- The search predicate of `getPosts`:
`post.title.toLowerCase().includes(searchLower) || post.excerpt.toLowerCase().includes(searchLower)`. -/
def searchPred (searchLower : String) (p : Post) : Bool :=
  strIncludes p.title.toLower searchLower || strIncludes p.excerpt.toLower searchLower

/-- Step `if (filters?.search) { ... }` — the guard is JS truthiness, so an empty
string skips the filter. -/
def applySearch (fs : PostFilters) (l : List Post) : List Post :=
  match fs.search with
  | some s => if s = "" then l else l.filter (searchPred s.toLower)
  | none => l

/-- Step `if (filters?.year) { ... }` — JS truthiness again, so `year: 0` skips
the filter. -/
def applyYear (fs : PostFilters) (l : List Post) : List Post :=
  match fs.year with
  | some y => if y = 0 then l else l.filter (fun p => p.publishedAt.year == y)
  | none => l

/-- Step `if (filters?.month !== undefined) { ... }` — an explicit undefined test,
applied whenever `month` is present, with or without `year`. -/
def applyMonth (fs : PostFilters) (l : List Post) : List Post :=
  match fs.month with
  | some m => l.filter (fun p => p.publishedAt.month == m)
  | none => l

/-- The filtered-but-unpaginated record set of `getPosts`, before sorting:
search filter, then year filter, then month filter, in source order. -/
def matchedPosts (posts : List Post) (fs : PostFilters) : List Post :=
  applyMonth fs (applyYear fs (applySearch fs posts))

/-- Order underlying the ascending comparator `(a, b) => a.publishedAt.getTime() - b.publishedAt.getTime()`. -/
def timeLe (a b : Post) : Prop :=
  a.publishedAt.time ≤ b.publishedAt.time

/-- Order underlying the descending comparator `(a, b) => b.publishedAt.getTime() - a.publishedAt.getTime()`. -/
def timeGe (a b : Post) : Prop :=
  b.publishedAt.time ≤ a.publishedAt.time

instance : DecidableRel timeLe := fun a b =>
  inferInstanceAs (Decidable (a.publishedAt.time ≤ b.publishedAt.time))

instance : DecidableRel timeGe := fun a b =>
  inferInstanceAs (Decidable (b.publishedAt.time ≤ a.publishedAt.time))

instance : IsTotal Post timeLe := ⟨fun a b => Int.le_total a.publishedAt.time b.publishedAt.time⟩

instance : IsTotal Post timeGe := ⟨fun a b => Int.le_total b.publishedAt.time a.publishedAt.time⟩

instance : IsTrans Post timeLe := ⟨fun _ _ _ h1 h2 => le_trans h1 h2⟩

instance : IsTrans Post timeGe := ⟨fun _ _ _ h1 h2 => le_trans h2 h1⟩

/-- The sort step of `getPosts`: `filters?.sortOrder === 'asc'` sorts
ascending, anything else descending; JS `Array.prototype.sort` is stable,
modelled by stable insertion sort over the comparator's preorder. -/
def sortPosts (fs : PostFilters) (l : List Post) : List Post :=
  if fs.sortOrder = some SortOrder.asc then l.insertionSort timeLe
  else l.insertionSort timeGe

/-- Filtered and sorted record set of `getPosts`, still unpaginated. -/
def sortedMatched (posts : List Post) (fs : PostFilters) : List Post :=
  sortPosts fs (matchedPosts posts fs)

/-- JavaScript `x || d` for an optional number `x`: `0` (and absence) falls
back to the default. -/
def jsOr (x : Option Int) (d : Int) : Int :=
  match x with
  | some v => if v = 0 then d else v
  | none => d

/-- JavaScript `Math.ceil(a / b)` on integers, `b ≠ 0`: negated floor division. -/
def jsCeilDiv (a b : Int) : Int :=
  -(Int.fdiv (-a) b)

/-- ECMAScript `Array.prototype.slice(s, e)`: negative indices count from
the end, then both are clamped to `[0, length]`. -/
def jsSlice {α : Type} (l : List α) (s e : Int) : List α :=
  let n : Int := l.length
  let s' : Int := if s < 0 then max (n + s) 0 else min s n
  let e' : Int := if e < 0 then max (n + e) 0 else min e n
  (l.drop s'.toNat).take (e' - s').toNat

/-- Operation `getPosts` of `MockDatabaseService`, as a function of the service state
(`this.author`, `this.posts`): filter, sort, paginate, resolve the author. -/
def getPosts (author : Author) (posts : List Post) (fs : PostFilters) : PaginatedPosts :=
  let sorted := sortedMatched posts fs
  let page := jsOr fs.page 1
  let perPage := jsOr fs.perPage 10
  let total : Int := sorted.length
  let totalPages := jsCeilDiv total perPage
  let startIndex := (page - 1) * perPage
  let endIndex := startIndex + perPage
  let paginated := jsSlice sorted startIndex endIndex
  { posts := paginated.map (withAuthor author),
    total := total, page := page, perPage := perPage, totalPages := totalPages }

/-- Operation `getPostBySlug`: `this.posts.find(p => p.slug === slug)`, `null` when
absent, author resolved when found. -/
def getPostBySlug (author : Author) (posts : List Post) (slug : String) : Option PostWithAuthor :=
  (posts.find? (fun p => p.slug == slug)).map (withAuthor author)

/-- Operation `getRecentPosts`: copy of `this.posts` sorted descending by
`publishedAt`, then `slice(0, limit)`, author resolved. -/
def getRecentPosts (author : Author) (posts : List Post) (limit : Int) : List PostWithAuthor :=
  let sorted := posts.insertionSort timeGe
  (jsSlice sorted 0 limit).map (withAuthor author)

/-- Abstract interface to the seeded faker library, threaded as explicit
state of type `σ`.  `seedFn n` is the generator state right after
`faker.seed(n)`; each generating call consumes and returns state.  The
repository treats faker as a deterministic function of this state. -/
structure FakerOps (σ : Type) where
  seedFn : Nat → σ
  uuid : σ → String × σ
  personFullName : σ → String × σ
  personBio : σ → String × σ
  imageAvatar : σ → String × σ
  internetEmail : σ → String × σ
  internetUsername : σ → String × σ
  loremSentenceRange : Nat → Nat → σ → String × σ
  loremSentence : σ → String × σ
  loremParagraph : σ → String × σ
  loremParagraphRange : Nat → Nat → σ → String × σ
  loremParagraphsRange : Nat → Nat → σ → List String × σ
  imageUrl : Nat → Nat → σ → String × σ
  datePast : Nat → σ → JsDate × σ
  arrayElements : List String → Nat → Nat → σ → List String × σ
  companyCatchPhrase : σ → String × σ
  slugify : String → String

/-- Generator `generateAuthor` of the service, faker calls in source order. -/
def generateAuthor {σ : Type} (F : FakerOps σ) (r0 : σ) : Author × σ :=
  let (authorId, r1) := F.uuid r0
  let (name, r2) := F.personFullName r1
  let (bio, r3) := F.personBio r2
  let (avatar, r4) := F.imageAvatar r3
  let (email, r5) := F.internetEmail r4
  let (tw, r6) := F.internetUsername r5
  let (li, r7) := F.internetUsername r6
  let (gh, r8) := F.internetUsername r7
  ({ id := authorId, name := name, bio := bio, avatar := avatar, email := email,
     social := { twitter := some tw, linkedin := some li, github := some gh } }, r8)

/-- The section pass of `generateMarkdownContent`: every third paragraph
after the first gets a generated `## heading` prefix. -/
def markdownSections {σ : Type} (F : FakerOps σ) : List String → Nat → σ → List String × σ
  | [], _, r => ([], r)
  | p :: rest, i, r =>
    if i % 3 = 0 ∧ 0 < i then
      let (s, r1) := F.loremSentence r
      let (tail, r2) := markdownSections F rest (i + 1) r1
      (("## " ++ s ++ "\n\n" ++ p) :: tail, r2)
    else
      let (tail, r1) := markdownSections F rest (i + 1) r
      (p :: tail, r1)

/-- Generator `generateMarkdownContent`: 5–10 paragraphs, headings inserted, joined
with blank lines. -/
def generateMarkdownContent {σ : Type} (F : FakerOps σ) (r0 : σ) : String × σ :=
  let (paras, r1) := F.loremParagraphsRange 5 10 r0
  let (secs, r2) := markdownSections F paras 0 r1
  (String.intercalate "\n\n" secs, r2)

/-- The fixed tag vocabulary of `generatePosts`. -/
def tagPool : List String :=
  ["technology", "programming", "design", "web", "javascript", "typescript",
   "react", "astro"]

/-- The generation loop of `generatePosts`: one post per iteration, faker
calls in the order the source evaluates them; the slug is the slugified,
lowercased title. -/
def generatePostsLoop {σ : Type} (F : FakerOps σ) (authorId : String) :
    Nat → σ → List Post × σ
  | 0, r => ([], r)
  | n + 1, r =>
    let (title, r1) := F.loremSentenceRange 3 8 r
    let slug := (F.slugify title).toLower
    let (postId, r2) := F.uuid r1
    let (excerpt, r3) := F.loremParagraph r2
    let (content, r4) := generateMarkdownContent F r3
    let (cover, r5) := F.imageUrl 1200 630 r4
    let (publishedAt, r6) := F.datePast 2 r5
    let (tags, r7) := F.arrayElements tagPool 1 3 r6
    let (rest, r8) := generatePostsLoop F authorId n r7
    ({ id := postId, title := title, slug := slug, excerpt := excerpt,
       content := content, coverImage := cover, publishedAt := publishedAt,
       authorId := authorId, tags := tags } :: rest, r8)

/-- Generator `generatePosts`: the loop followed by the final descending sort by
`publishedAt` (stable JS sort). -/
def generatePosts {σ : Type} (F : FakerOps σ) (authorId : String) (count : Nat) (r0 : σ) :
    List Post × σ :=
  let (ps, r1) := generatePostsLoop F authorId count r0
  (ps.insertionSort timeGe, r1)

/-- The state `MockDatabaseService` holds after construction. -/
structure ServiceState where
  author : Author
  posts : List Post
deriving DecidableEq, Repr

/-- The `MockDatabaseService` constructor: whatever the faker state was
before (`rPrev`), it is overwritten by `faker.seed(123)`, then the author
and 25 posts are generated. -/
def mkService {σ : Type} (F : FakerOps σ) (rPrev : σ) : ServiceState :=
  let _ := rPrev
  let r0 := F.seedFn 123
  let (author, r1) := generateAuthor F r0
  let (posts, _) := generatePosts F author.id 25 r1
  { author := author, posts := posts }

/-- The `page` union type of `getPageContent` (`'home' | 'about' | 'contact'`). -/
inductive Page where
  | home
  | about
  | contact
deriving DecidableEq, Repr

/-- The key string the JS object lookup uses for each page. -/
def Page.key : Page → String
  | Page.home => "home"
  | Page.about => "about"
  | Page.contact => "contact"

/-- The `locale` union type of `getPageContent` (`'pt' | 'en'`). -/
inductive Locale where
  | pt
  | en
deriving DecidableEq, Repr

/-- The key string the JS object lookup uses for each locale. -/
def Locale.key : Locale → String
  | Locale.pt => "pt"
  | Locale.en => "en"

/-- The shape `getPageContent` returns: `subtitle` is optional. -/
structure PageContent where
  title : String
  subtitle : Option String
  content : List String
deriving DecidableEq, Repr

/-- The `content` object literal of `getPageContent`, built after
`faker.seed(456)` with faker calls in source evaluation order, keyed by
page and locale strings. -/
def pageContentTable {σ : Type} (F : FakerOps σ) :
    List (String × List (String × PageContent)) :=
  let r0 := F.seedFn 456
  let (homePtTitle, r1) := F.companyCatchPhrase r0
  let (homePtSub, r2) := F.loremSentenceRange 8 15 r1
  let (homeEnTitle, r3) := F.companyCatchPhrase r2
  let (homeEnSub, r4) := F.loremSentenceRange 8 15 r3
  let (aboutPt1, r5) := F.loremParagraphRange 3 5 r4
  let (aboutPt2, r6) := F.loremParagraphRange 3 5 r5
  let (aboutPt3, r7) := F.loremParagraphRange 3 5 r6
  let (aboutEn1, r8) := F.loremParagraphRange 3 5 r7
  let (aboutEn2, r9) := F.loremParagraphRange 3 5 r8
  let (aboutEn3, r10) := F.loremParagraphRange 3 5 r9
  let (contactPt2, r11) := F.loremParagraphRange 2 4 r10
  let (contactEn2, _) := F.loremParagraphRange 2 4 r11
  [("home",
    [("pt", { title := homePtTitle, subtitle := some homePtSub, content := [] }),
     ("en", { title := homeEnTitle, subtitle := some homeEnSub, content := [] })]),
   ("about",
    [("pt", { title := "Sobre Este Blog", subtitle := none,
              content := [aboutPt1, aboutPt2, aboutPt3] }),
     ("en", { title := "About This Blog", subtitle := none,
              content := [aboutEn1, aboutEn2, aboutEn3] })]),
   ("contact",
    [("pt", { title := "Entre em Contato", subtitle := none,
              content := ["Sinta-se Ã  vontade para entrar em contato!", contactPt2] }),
     ("en", { title := "Get In Touch", subtitle := none,
              content := ["Feel free to reach out!", contactEn2] })])]

/-- Operation `getPageContent`: builds the whole content object, then indexes it by
`page` and `locale`; a missing key would surface as `none`. -/
def getPageContent {σ : Type} (F : FakerOps σ) (page : Page) (locale : Locale) :
    Option PageContent :=
  ((pageContentTable F).lookup page.key).bind (fun m => m.lookup locale.key)

/-- Spec-level predicate: the search filter keeps `p` (vacuous when no
non-empty search string is supplied). -/
def searchKeeps (fs : PostFilters) (p : Post) : Bool :=
  match fs.search with
  | some s => s == "" || searchPred s.toLower p
  | none => true

/-- Spec-level predicate: the year filter keeps `p` (vacuous when `year`
is absent or `0`, the JS-falsy year). -/
def yearKeeps (fs : PostFilters) (p : Post) : Bool :=
  match fs.year with
  | some y => y == 0 || p.publishedAt.year == y
  | none => true

/-- Spec-level predicate: the month filter keeps `p`; it reads only
`fs.month`, never `fs.year`. -/
def monthKeeps (fs : PostFilters) (p : Post) : Bool :=
  match fs.month with
  | some m => p.publishedAt.month == m
  | none => true

/-- Strict descending order on publication instants. -/
def timeLt (a b : Post) : Prop :=
  a.publishedAt.time < b.publishedAt.time

instance : DecidableRel timeLt := fun a b =>
  inferInstanceAs (Decidable (a.publishedAt.time < b.publishedAt.time))

/-- Fixed author used for concrete evaluations. -/
def sampleAuthor : Author :=
  { id := "author-1", name := "Ana", bio := "bio", avatar := "avatar",
    email := "ana@example.com",
    social := { twitter := none, linkedin := none, github := none } }

/-- Compact concrete post constructor used for concrete evaluations. -/
def samplePost (pid slug : String) (time year month : Int) : Post :=
  { id := pid, title := pid, slug := slug, excerpt := "", content := "",
    coverImage := "", publishedAt := { time := time, year := year, month := month },
    authorId := "author-1", tags := [] }

theorem toPost_withAuthor (a : Author) (p : Post) : (withAuthor a p).toPost = p := rfl

theorem mem_applySearch {fs : PostFilters} {l : List Post} {p : Post} :
    p ∈ applySearch fs l ↔ p ∈ l ∧ searchKeeps fs p = true := by
  unfold applySearch searchKeeps
  cases hs : fs.search with
  | none => simp
  | some s =>
    by_cases he : s = ""
    · simp [he]
    · simp [he, List.mem_filter, beq_iff_eq]

theorem mem_applyYear {fs : PostFilters} {l : List Post} {p : Post} :
    p ∈ applyYear fs l ↔ p ∈ l ∧ yearKeeps fs p = true := by
  unfold applyYear yearKeeps
  cases hy : fs.year with
  | none => simp
  | some y =>
    by_cases h0 : y = 0
    · simp [h0]
    · simp [h0, List.mem_filter, beq_iff_eq]

theorem mem_applyMonth {fs : PostFilters} {l : List Post} {p : Post} :
    p ∈ applyMonth fs l ↔ p ∈ l ∧ monthKeeps fs p = true := by
  unfold applyMonth monthKeeps
  cases hm : fs.month with
  | none => simp
  | some m => simp [List.mem_filter]

theorem mem_matchedPosts {posts : List Post} {fs : PostFilters} {p : Post} :
    p ∈ matchedPosts posts fs ↔
      p ∈ posts ∧ searchKeeps fs p = true ∧ yearKeeps fs p = true ∧
        monthKeeps fs p = true := by
  unfold matchedPosts
  rw [mem_applyMonth, mem_applyYear, mem_applySearch]
  tauto

theorem mem_sortedMatched {posts : List Post} {fs : PostFilters} {p : Post} :
    p ∈ sortedMatched posts fs ↔ p ∈ matchedPosts posts fs := by
  unfold sortedMatched sortPosts
  split <;> exact List.mem_insertionSort _

/-- C1 — counterexample.  The claim predicts that a `month` filter without a
`year` filter imposes no restriction; on a store holding one January post,
filtering by `month = 1` (February) actually empties the result, while the
unfiltered query returns the post. -/
theorem getPosts_monthWithoutYear_restricts :
    (getPosts sampleAuthor [samplePost "p1" "p1" 0 2024 0]
        { month := some 1 }).posts = [] ∧
      (getPosts sampleAuthor [samplePost "p1" "p1" 0 2024 0] {}).posts ≠ [] := by
  decide

/-- C1 (amended): the year filter applies exactly when `year` is supplied and
non-zero (JS truthiness), and the month filter applies exactly when `month`
is supplied — independently of `year`, so a `month` filter without a `year`
filter does restrict the result; every post the envelope returns comes from
the so-filtered record set. -/
theorem getPosts_calendarFilter (a : Author) (posts : List Post) (fs : PostFilters) :
    (∀ p : Post, p ∈ matchedPosts posts fs ↔
        p ∈ posts ∧ searchKeeps fs p = true ∧ yearKeeps fs p = true ∧
          monthKeeps fs p = true) ∧
      ∀ pw ∈ (getPosts a posts fs).posts, pw.toPost ∈ matchedPosts posts fs := by
  constructor
  · intro p
    exact mem_matchedPosts
  · intro pw hpw
    have hmem : ∃ p ∈ jsSlice (sortedMatched posts fs)
        ((jsOr fs.page 1 - 1) * jsOr fs.perPage 10)
        ((jsOr fs.page 1 - 1) * jsOr fs.perPage 10 + jsOr fs.perPage 10),
          withAuthor a p = pw := by
      simpa [getPosts] using hpw
    obtain ⟨p, hp, hpa⟩ := hmem
    have hp' : p ∈ sortedMatched posts fs := by
      have h1 : p ∈ (sortedMatched posts fs).drop _ :=
        (List.take_sublist _ _).subset hp
      exact (List.drop_sublist _ _).subset h1
    rw [← hpa, toPost_withAuthor]
    exact mem_sortedMatched.mp hp'

theorem jsSlice_nonneg {α : Type} (l : List α) (s k : Int) (hs : 0 ≤ s) (hk : 0 ≤ k) :
    jsSlice l s (s + k) = (l.drop s.toNat).take k.toNat := by
  unfold jsSlice
  have hns : ¬ s < 0 := not_lt.2 hs
  have hne : ¬ s + k < 0 := by omega
  simp only [if_neg hns, if_neg hne]
  rcases le_or_lt s (l.length : Int) with hsl | hsl
  · rw [min_eq_left hsl, List.take_eq_take]
    simp only [List.length_drop]
    omega
  · have h1 : min s (l.length : Int) = (l.length : Int) := min_eq_right hsl.le
    have h2 : min (s + k) (l.length : Int) = (l.length : Int) := by omega
    rw [h1, h2]
    have h4 : l.length ≤ s.toNat := by omega
    have h5 : ((l.length : Int) - (l.length : Int)).toNat = 0 := by omega
    rw [h5, List.take_zero, List.drop_eq_nil_of_le h4, List.take_nil]

theorem le_jsCeilDiv_mul (a b : Int) (hb : 0 < b) : a ≤ jsCeilDiv a b * b := by
  unfold jsCeilDiv
  rw [Int.fdiv_eq_ediv _ hb.le, neg_mul]
  have h := Int.ediv_mul_le (-a) (ne_of_gt hb)
  linarith

theorem jsCeilDiv_pred_mul_lt (a b : Int) (hb : 0 < b) : (jsCeilDiv a b - 1) * b < a := by
  unfold jsCeilDiv
  rw [Int.fdiv_eq_ediv _ hb.le]
  have h := Int.lt_ediv_add_one_mul_self (-a) hb
  have h2 : (-(-a / b) - 1) * b = -((-a / b + 1) * b) := by ring
  rw [h2]
  linarith

theorem jsCeilDiv_nonneg (a b : Int) (ha : 0 ≤ a) (hb : 0 < b) : 0 ≤ jsCeilDiv a b := by
  by_contra h
  push_neg at h
  have h1 : jsCeilDiv a b ≤ -1 := by omega
  have h2 : jsCeilDiv a b * b ≤ -1 * b :=
    mul_le_mul_of_nonneg_right h1 hb.le
  have h3 := le_jsCeilDiv_mul a b hb
  linarith

theorem length_sortedMatched (posts : List Post) (fs : PostFilters) :
    (sortedMatched posts fs).length = (matchedPosts posts fs).length := by
  unfold sortedMatched sortPosts
  split <;> exact List.length_insertionSort _ _

/-- The arithmetic heart of the page-emptiness criterion. -/
theorem pagination_empty_iff (len : Nat) (pg P : Int) (hpg : 1 ≤ pg) (hP : 1 ≤ P) :
    (min P.toNat (len - ((pg - 1) * P).toNat) = 0 ↔
      jsCeilDiv (len : Int) P < pg ∨ (len : Nat) = 0) := by
  have hP0 : 0 < P := by omega
  have hs0 : 0 ≤ (pg - 1) * P := mul_nonneg (by omega) hP0.le
  have hle := le_jsCeilDiv_mul (len : Int) P hP0
  have hlt := jsCeilDiv_pred_mul_lt (len : Int) P hP0
  have hTP0 := jsCeilDiv_nonneg (len : Int) P (by positivity) hP0
  constructor
  · intro h
    by_cases hlen : len = 0
    · exact Or.inr hlen
    · refine Or.inl ?_
      have hdrop : (len : Int) ≤ (pg - 1) * P := by omega
      by_contra hcon
      push_neg at hcon
      have hmono : (pg - 1) * P ≤ (jsCeilDiv (len : Int) P - 1) * P :=
        mul_le_mul_of_nonneg_right (by omega) hP0.le
      linarith
  · intro h
    rcases h with h | h
    · have hmono : jsCeilDiv (len : Int) P * P ≤ (pg - 1) * P :=
        mul_le_mul_of_nonneg_right (by omega) hP0.le
      have : (len : Int) ≤ (pg - 1) * P := le_trans hle hmono
      omega
    · omega

/-- C4 — counterexample.  With a negative `perPage` the claimed invariant
`posts.length <= perPage` fails: the envelope carries `perPage = -5` while
its (empty) posts list has length `0 > -5`. -/
theorem getPosts_negative_perPage_breaks_invariant :
    ¬ (((getPosts sampleAuthor [samplePost "p4" "p4" 0 2024 0]
          { perPage := some (-5) }).posts.length : Int) ≤
        (getPosts sampleAuthor [samplePost "p4" "p4" 0 2024 0]
          { perPage := some (-5) }).perPage) := by
  decide

/-- C4 (amended): whenever the effective page and page size are at least 1
(which covers the defaults and every sensible filter set, but not JS-level
abuse such as `perPage: -5`), the envelope satisfies the claimed invariant:
`posts.length <= perPage`, `posts` is empty iff the page exceeds
`totalPages` or nothing matches, and `total`/`totalPages` are computed on
the filtered-but-unpaginated set. -/
theorem getPosts_envelope_invariant (a : Author) (posts : List Post) (fs : PostFilters)
    (hpg : 1 ≤ jsOr fs.page 1) (hpp : 1 ≤ jsOr fs.perPage 10) :
    (((getPosts a posts fs).posts.length : Int) ≤ (getPosts a posts fs).perPage) ∧
      ((getPosts a posts fs).posts = [] ↔
        (getPosts a posts fs).totalPages < (getPosts a posts fs).page ∨
          (getPosts a posts fs).total = 0) ∧
      ((getPosts a posts fs).total = ((matchedPosts posts fs).length : Int)) ∧
      ((getPosts a posts fs).totalPages =
        jsCeilDiv ((matchedPosts posts fs).length : Int) (jsOr fs.perPage 10)) := by
  have hP0 : (0 : Int) < jsOr fs.perPage 10 := by omega
  have hs0 : 0 ≤ (jsOr fs.page 1 - 1) * jsOr fs.perPage 10 :=
    mul_nonneg (by omega) hP0.le
  have hslice := jsSlice_nonneg (sortedMatched posts fs)
    ((jsOr fs.page 1 - 1) * jsOr fs.perPage 10) (jsOr fs.perPage 10) hs0 hP0.le
  have hlen := length_sortedMatched posts fs
  refine ⟨?_, ?_, ?_, ?_⟩
  · simp only [getPosts, hslice, List.length_map, List.length_take]
    omega
  · simp only [getPosts, hslice]
    rw [List.map_eq_nil_iff, ← List.length_eq_zero, List.length_take,
      List.length_drop, hlen, Nat.cast_eq_zero]
    exact pagination_empty_iff (matchedPosts posts fs).length (jsOr fs.page 1)
      (jsOr fs.perPage 10) hpg hpp
  · simp only [getPosts, hlen]
  · simp only [getPosts, hlen]

/-- C4 — concrete witness for the amended envelope invariant. -/
theorem getPosts_envelope_invariant_witness :
    (1 ≤ jsOr ({} : PostFilters).page 1) ∧ (1 ≤ jsOr ({} : PostFilters).perPage 10) ∧
      (((getPosts sampleAuthor [samplePost "w4" "w4" 5 2024 3] {}).posts.length : Int) ≤
        (getPosts sampleAuthor [samplePost "w4" "w4" 5 2024 3] {}).perPage) :=
  ⟨by decide, by decide,
    (getPosts_envelope_invariant sampleAuthor [samplePost "w4" "w4" 5 2024 3] {}
      (by decide) (by decide)).1⟩

/-- Chopping a list into `K` pages of `P` elements each recovers every
element exactly once, provided `K` pages suffice. -/
theorem pages_length_sum {α : Type} (P : Nat) :
    ∀ (K : Nat) (l : List α), l.length ≤ K * P →
      ((List.range K).map (fun k => ((l.drop (k * P)).take P).length)).sum = l.length := by
  intro K
  induction K with
  | zero =>
    intro l h
    simp only [Nat.zero_mul, Nat.le_zero] at h
    simp [h]
  | succ K ih =>
    intro l h
    have h' : l.length ≤ K * P + P := by
      rw [Nat.succ_mul] at h
      exact h
    rw [List.range_succ_eq_map, List.map_cons, List.sum_cons, List.map_map]
    have hcomp : ((fun k => ((l.drop (k * P)).take P).length) ∘ Nat.succ)
        = fun k => (((l.drop P).drop (k * P)).take P).length := by
      funext k
      simp only [Function.comp, List.drop_drop]
      have hidx : Nat.succ k * P = P + k * P := by
        rw [Nat.succ_mul]
        omega
      rw [hidx]
    rw [hcomp, ih (l.drop P) (by simp only [List.length_drop]; omega)]
    simp only [Nat.zero_mul, List.drop_zero, List.length_take, List.length_drop]
    omega

/-- C6 — counterexample.  With `perPage = -5` over a one-post store,
`totalPages` is `0`, so the sum of `posts.length` over pages `1..totalPages`
is an empty sum `0`, yet `total = 1`: the partition property fails for this
filter set. -/
theorem getPosts_pages_sum_breaks_negative_perPage :
    ((List.range (getPosts sampleAuthor [samplePost "p6" "p6" 0 2024 0]
          { perPage := some (-5) }).totalPages.toNat).map
        (fun (k : Nat) => (getPosts sampleAuthor [samplePost "p6" "p6" 0 2024 0]
          { perPage := some (-5), page := some ((k : Int) + 1) }).posts.length)).sum ≠
      (getPosts sampleAuthor [samplePost "p6" "p6" 0 2024 0]
        { perPage := some (-5) }).total.toNat := by
  decide

/-- C6 (amended): whenever the effective page size is at least 1 (the
default or any positive `perPage`, excluding JS-level abuse such as
`perPage: -5`), the pages `1..totalPages` partition the filtered set: their
`posts.length` values sum to `total`, and the last page holds between 1 and
`perPage` posts unless nothing matched. -/
theorem getPosts_pages_partition (a : Author) (posts : List Post) (fs : PostFilters)
    (hpp : 1 ≤ jsOr fs.perPage 10) :
    (((List.range (getPosts a posts fs).totalPages.toNat).map
        (fun (k : Nat) => (getPosts a posts
          { fs with page := some ((k : Int) + 1) }).posts.length)).sum
      = (matchedPosts posts fs).length) ∧
    (0 < (matchedPosts posts fs).length →
      1 ≤ (getPosts a posts
          { fs with page := some (getPosts a posts fs).totalPages }).posts.length ∧
        ((getPosts a posts
          { fs with page := some (getPosts a posts fs).totalPages }).posts.length : Int)
          ≤ jsOr fs.perPage 10) := by
  have hP0 : (0 : Int) < jsOr fs.perPage 10 := by omega
  have hPn : (((jsOr fs.perPage 10).toNat : Nat) : Int) = jsOr fs.perPage 10 :=
    Int.toNat_of_nonneg hP0.le
  have hlen := length_sortedMatched posts fs
  have hTP0 : 0 ≤ jsCeilDiv ((sortedMatched posts fs).length : Int) (jsOr fs.perPage 10) :=
    jsCeilDiv_nonneg _ _ (by positivity) hP0
  have hle := le_jsCeilDiv_mul ((sortedMatched posts fs).length : Int) (jsOr fs.perPage 10) hP0
  have hlt := jsCeilDiv_pred_mul_lt ((sortedMatched posts fs).length : Int)
    (jsOr fs.perPage 10) hP0
  have hmatched : ∀ x : Option Int,
      sortedMatched posts { fs with page := x } = sortedMatched posts fs := fun _ => rfl
  have hposts : ∀ pg : Int, 1 ≤ pg →
      (getPosts a posts { fs with page := some pg }).posts
        = (((sortedMatched posts fs).drop ((pg - 1) * jsOr fs.perPage 10).toNat).take
            (jsOr fs.perPage 10).toNat).map (withAuthor a) := by
    intro pg hpg
    have hj : jsOr (some pg) 1 = pg := by
      simp only [jsOr]
      rw [if_neg (by omega)]
    have hs0 : 0 ≤ (pg - 1) * jsOr fs.perPage 10 := mul_nonneg (by omega) hP0.le
    have hsl := jsSlice_nonneg (sortedMatched posts fs)
      ((pg - 1) * jsOr fs.perPage 10) (jsOr fs.perPage 10) hs0 hP0.le
    simp only [getPosts, hmatched, hj, hsl]
  have hTPfield : (getPosts a posts fs).totalPages
      = jsCeilDiv ((sortedMatched posts fs).length : Int) (jsOr fs.perPage 10) := by
    simp only [getPosts]
  constructor
  · rw [hTPfield]
    set TP := jsCeilDiv ((sortedMatched posts fs).length : Int) (jsOr fs.perPage 10) with hTP
    have hmap : (List.range TP.toNat).map
        (fun (k : Nat) => (getPosts a posts
          { fs with page := some ((k : Int) + 1) }).posts.length)
        = (List.range TP.toNat).map
        (fun (k : Nat) => (((sortedMatched posts fs).drop
            (k * (jsOr fs.perPage 10).toNat)).take (jsOr fs.perPage 10).toNat).length) := by
      apply List.map_congr_left
      intro k _
      rw [hposts ((k : Int) + 1) (by omega), List.length_map]
      have hidx : (((k : Int) + 1 - 1) * jsOr fs.perPage 10).toNat
          = k * (jsOr fs.perPage 10).toNat := by
        conv_lhs => rw [show ((k : Int) + 1 - 1) = (k : Int) by ring, ← hPn,
          ← Nat.cast_mul, Int.toNat_natCast]
      rw [hidx]
    have hbound : (sortedMatched posts fs).length
        ≤ TP.toNat * (jsOr fs.perPage 10).toNat := by
      have hcast : ((TP.toNat * (jsOr fs.perPage 10).toNat : Nat) : Int)
          = TP * jsOr fs.perPage 10 := by
        rw [Nat.cast_mul, Int.toNat_of_nonneg hTP0, hPn]
      have : ((sortedMatched posts fs).length : Int)
          ≤ ((TP.toNat * (jsOr fs.perPage 10).toNat : Nat) : Int) := by
        rw [hcast]
        exact hle
      exact_mod_cast this
    rw [hmap, pages_length_sum (jsOr fs.perPage 10).toNat TP.toNat
      (sortedMatched posts fs) hbound, hlen]
  · intro hmpos
    have hTP1 : 1 ≤ jsCeilDiv ((sortedMatched posts fs).length : Int) (jsOr fs.perPage 10) := by
      by_contra hcon
      push_neg at hcon
      have hz : jsCeilDiv ((sortedMatched posts fs).length : Int) (jsOr fs.perPage 10) = 0 := by
        omega
      rw [hz, zero_mul] at hle
      omega
    have hstart : ((((getPosts a posts fs).totalPages - 1) * jsOr fs.perPage 10).toNat : Int)
        = ((getPosts a posts fs).totalPages - 1) * jsOr fs.perPage 10 := by
      rw [hTPfield]
      exact Int.toNat_of_nonneg (mul_nonneg (by omega) hP0.le)
    have hSlt : (((getPosts a posts fs).totalPages - 1) * jsOr fs.perPage 10).toNat
        < (sortedMatched posts fs).length := by
      rw [hTPfield] at hstart ⊢
      omega
    rw [hposts _ (by rw [hTPfield]; exact hTP1), List.length_map, List.length_take,
      List.length_drop]
    constructor
    · omega
    · omega

/-- C6 — concrete witness for the amended partition property. -/
theorem getPosts_pages_partition_witness :
    (1 ≤ jsOr ({} : PostFilters).perPage 10) ∧
      ((List.range (getPosts sampleAuthor [samplePost "w6" "w6" 7 2023 4]
            {}).totalPages.toNat).map
          (fun (k : Nat) => (getPosts sampleAuthor [samplePost "w6" "w6" 7 2023 4]
            { page := some ((k : Int) + 1) }).posts.length)).sum
        = (matchedPosts [samplePost "w6" "w6" 7 2023 4] ({} : PostFilters)).length :=
  ⟨by decide,
    (getPosts_pages_partition sampleAuthor [samplePost "w6" "w6" 7 2023 4] {}
      (by decide)).1⟩

/-- C7: with the same year filter `Y`, adding a month filter `M` yields
exactly the month-`M` subset of the year-`Y` record set (the
filtered-but-unpaginated sets the envelopes are cut from). -/
theorem matchedPosts_year_month_compose (posts : List Post) (Y M : Int) :
    matchedPosts posts { year := some Y, month := some M } =
      (matchedPosts posts { year := some Y }).filter
        (fun p => p.publishedAt.month == M) := by
  unfold matchedPosts applyMonth applyYear applySearch
  rfl

/-- Distinct publication instants, the tie-freedom condition. -/
def distinctTimes (l : List Post) : Prop :=
  l.Pairwise (fun x y => x.publishedAt.time ≠ y.publishedAt.time)

instance (l : List Post) : Decidable (distinctTimes l) :=
  inferInstanceAs (Decidable (l.Pairwise _))

/-- C5 — counterexample.  Two posts published at the same instant: the
stable sort leaves them in insertion order under both sort orders, so the
ascending result is not the reverse of the descending one. -/
theorem getPosts_asc_desc_not_reverse_on_ties :
    (getPosts sampleAuthor
        [samplePost "t1" "t1" 5 2024 0, samplePost "t2" "t2" 5 2024 0]
        { sortOrder := some SortOrder.asc }).posts ≠
      ((getPosts sampleAuthor
        [samplePost "t1" "t1" 5 2024 0, samplePost "t2" "t2" 5 2024 0]
        { sortOrder := some SortOrder.desc }).posts).reverse := by
  decide

/-- C5 (amended): the `asc` and `desc` runs of `getPosts` always agree on
`total` and their filtered, sorted, pre-pagination sequences are
permutations of each other (same membership); when the matched posts carry
pairwise-distinct publication instants — true of tie-free data, and what
the claim's strict reversal presupposes — the ascending sequence is
exactly the reverse of the descending one. -/
theorem getPosts_asc_desc_reverse (a : Author) (posts : List Post) (fs : PostFilters) :
    (getPosts a posts { fs with sortOrder := some SortOrder.asc }).total =
      (getPosts a posts { fs with sortOrder := some SortOrder.desc }).total ∧
    (sortedMatched posts { fs with sortOrder := some SortOrder.asc }).Perm
      (sortedMatched posts { fs with sortOrder := some SortOrder.desc }) ∧
    (distinctTimes (matchedPosts posts fs) →
      sortedMatched posts { fs with sortOrder := some SortOrder.asc } =
        (sortedMatched posts { fs with sortOrder := some SortOrder.desc }).reverse) := by
  have hA : sortedMatched posts { fs with sortOrder := some SortOrder.asc }
      = (matchedPosts posts fs).insertionSort timeLe := rfl
  have hD : sortedMatched posts { fs with sortOrder := some SortOrder.desc }
      = (matchedPosts posts fs).insertionSort timeGe := rfl
  have hpermA := List.perm_insertionSort timeLe (matchedPosts posts fs)
  have hpermD := List.perm_insertionSort timeGe (matchedPosts posts fs)
  have hsymm : ∀ {x y : Post}, x.publishedAt.time ≠ y.publishedAt.time →
      y.publishedAt.time ≠ x.publishedAt.time := fun h => h.symm
  refine ⟨?_, ?_, ?_⟩
  · have h1 : (getPosts a posts { fs with sortOrder := some SortOrder.asc }).total
        = ((matchedPosts posts fs).length : Int) := by
      simp only [getPosts, length_sortedMatched]
      rfl
    have h2 : (getPosts a posts { fs with sortOrder := some SortOrder.desc }).total
        = ((matchedPosts posts fs).length : Int) := by
      simp only [getPosts, length_sortedMatched]
      rfl
    rw [h1, h2]
  · rw [hA, hD]
    exact hpermA.trans hpermD.symm
  · intro hd
    have hdA : ((matchedPosts posts fs).insertionSort timeLe).Pairwise
        (fun x y => x.publishedAt.time ≠ y.publishedAt.time) :=
      (List.Perm.pairwise_iff hsymm hpermA).mpr hd
    have hdD : ((matchedPosts posts fs).insertionSort timeGe).Pairwise
        (fun x y => x.publishedAt.time ≠ y.publishedAt.time) :=
      (List.Perm.pairwise_iff hsymm hpermD).mpr hd
    have hsortA : ((matchedPosts posts fs).insertionSort timeLe).Pairwise timeLt := by
      have h1 := List.sorted_insertionSort timeLe (matchedPosts posts fs)
      exact (List.Pairwise.and h1 hdA).imp (fun h => lt_of_le_of_ne h.1 h.2)
    have hsortDrev : (((matchedPosts posts fs).insertionSort timeGe).reverse).Pairwise
        timeLt := by
      have h1 := List.sorted_insertionSort timeGe (matchedPosts posts fs)
      have h2 := (List.Pairwise.and h1 hdD).imp
        (fun h => lt_of_le_of_ne h.1 (hsymm h.2))
      exact List.pairwise_reverse.mpr h2
    haveI : IsAntisymm Post timeLt :=
      ⟨fun x y h1 h2 => absurd (lt_trans h1 h2) (lt_irrefl _)⟩
    rw [hA, hD]
    exact List.eq_of_perm_of_sorted
      (hpermA.trans (hpermD.symm.trans (List.reverse_perm _).symm)) hsortA hsortDrev

theorem jsSlice_sublist {α : Type} (l : List α) (s e : Int) : (jsSlice l s e).Sublist l := by
  simp only [jsSlice]
  exact (List.take_sublist _ _).trans (List.drop_sublist _ _)

theorem jsSlice_zero_start {α : Type} (l : List α) (e : Int) :
    jsSlice l 0 e = l.take (if e < 0 then ((l.length : Int) + e).toNat else e.toNat) := by
  simp only [jsSlice]
  rw [if_neg (lt_irrefl 0), min_eq_left (Int.natCast_nonneg _)]
  split_ifs with he
  · simp only [Int.toNat_zero, List.drop_zero, sub_zero]
    rw [List.take_eq_take]
    omega
  · simp only [Int.toNat_zero, List.drop_zero, sub_zero]
    rw [List.take_eq_take]
    omega

/-- C2 — counterexample.  The claim says every `limit <= 0` yields the
empty sequence, but `slice(0, -1)` on a two-post store returns the first
post (negative slice ends count from the end of the array). -/
theorem getRecentPosts_negative_limit_not_empty :
    getRecentPosts sampleAuthor
      [samplePost "r1" "r1" 2 2024 0, samplePost "r2" "r2" 1 2024 0] (-1) ≠ [] := by
  decide

/-- C2 (amended): `getRecentPosts limit` takes a prefix of a descending
reordering of the stored posts, resolving the author on each element: for
`limit >= 0` the first `limit` (clamped to the store size) most recent
posts — empty at `limit = 0` — while a negative `limit` follows the JS
`slice(0, limit)` semantics and returns all but the last `|limit|` posts
(so it is empty only when `limit <= -count`); the sequence is strictly
descending by `publishedAt` whenever the stored instants are pairwise
distinct, which the claim's strictness presupposes. -/
theorem getRecentPosts_spec (a : Author) (posts : List Post) (limit : Int) :
    ∃ L : List Post, L.Perm posts ∧ L.Pairwise timeGe ∧
      getRecentPosts a posts limit =
        (L.take (if limit < 0 then ((posts.length : Int) + limit).toNat
                 else limit.toNat)).map (withAuthor a) ∧
      (limit = 0 → getRecentPosts a posts limit = []) ∧
      (limit ≤ -(posts.length : Int) → getRecentPosts a posts limit = []) ∧
      (∀ pw ∈ getRecentPosts a posts limit, pw.author = a) ∧
      (distinctTimes posts →
        (getRecentPosts a posts limit).Pairwise
          (fun x y => y.publishedAt.time < x.publishedAt.time)) := by
  have hlen : (posts.insertionSort timeGe).length = posts.length :=
    List.length_insertionSort timeGe posts
  have hrec : getRecentPosts a posts limit
      = (jsSlice (posts.insertionSort timeGe) 0 limit).map (withAuthor a) := rfl
  refine ⟨posts.insertionSort timeGe, List.perm_insertionSort timeGe posts,
    List.sorted_insertionSort timeGe posts, ?_, ?_, ?_, ?_, ?_⟩
  · rw [hrec, jsSlice_zero_start, hlen]
  · intro h0
    subst h0
    rw [hrec, jsSlice_zero_start]
    simp
  · intro hbig
    rw [hrec, jsSlice_zero_start, hlen]
    have hz : (if limit < 0 then ((posts.length : Int) + limit).toNat
        else limit.toNat) = 0 := by
      split_ifs <;> omega
    rw [hz, List.take_zero, List.map_nil]
  · intro pw hpw
    rw [hrec] at hpw
    obtain ⟨p, _, hp⟩ := List.mem_map.mp hpw
    rw [← hp]
    rfl
  · intro hd
    have hdL : (posts.insertionSort timeGe).Pairwise
        (fun x y => x.publishedAt.time ≠ y.publishedAt.time) :=
      (List.Perm.pairwise_iff (fun h => h.symm)
        (List.perm_insertionSort timeGe posts)).mpr hd
    have hstrict : (posts.insertionSort timeGe).Pairwise
        (fun x y => y.publishedAt.time < x.publishedAt.time) :=
      (List.Pairwise.and (List.sorted_insertionSort timeGe posts) hdL).imp
        (fun h => lt_of_le_of_ne h.1 (Ne.symm h.2))
    rw [hrec, List.pairwise_map]
    exact List.Pairwise.sublist (jsSlice_sublist _ _ _) hstrict

/-- C8: on a store that is sorted descending by `publishedAt` (as
`generatePosts` guarantees) and non-empty, `getRecentPosts 1` returns one
post, and looking its slug up with `getPostBySlug` returns a post with the
same `id`; a slug matching no post yields `none` rather than an error. -/
theorem getPostBySlug_recent_roundtrip (a : Author) (posts : List Post)
    (hs : posts.Pairwise timeGe) (hne : posts ≠ []) :
    (∃ pw : PostWithAuthor, getRecentPosts a posts 1 = [pw] ∧
      ∃ q : PostWithAuthor, getPostBySlug a posts pw.slug = some q ∧ q.id = pw.id) ∧
    (∀ s : String, (∀ p ∈ posts, p.slug ≠ s) → getPostBySlug a posts s = none) := by
  constructor
  · obtain ⟨h, t, rfl⟩ := List.exists_cons_of_ne_nil hne
    have hsorted : (h :: t).insertionSort timeGe = h :: t :=
      List.Sorted.insertionSort_eq hs
    have hone : getRecentPosts a (h :: t) 1 = [withAuthor a h] := by
      show (jsSlice ((h :: t).insertionSort timeGe) 0 1).map (withAuthor a) = _
      rw [hsorted, jsSlice_zero_start]
      norm_num
    refine ⟨withAuthor a h, hone, withAuthor a h, ?_, rfl⟩
    show (List.find? (fun p => p.slug == (withAuthor a h).slug) (h :: t)).map
      (withAuthor a) = some (withAuthor a h)
    rw [List.find?_cons_of_pos _ (by simp [withAuthor])]
    rfl
  · intro s hnone
    show (List.find? (fun p => p.slug == s) posts).map (withAuthor a) = none
    rw [List.find?_eq_none.mpr (fun p hp => by simp [hnone p hp])]
    rfl

/-- C8 — concrete witness for the slug-lookup round-trip. -/
theorem getPostBySlug_recent_roundtrip_witness :
    ∃ pw : PostWithAuthor,
      getRecentPosts sampleAuthor
        [samplePost "s1" "slug-one" 9 2024 1, samplePost "s2" "slug-two" 3 2024 0] 1 = [pw] ∧
      ∃ q : PostWithAuthor,
        getPostBySlug sampleAuthor
          [samplePost "s1" "slug-one" 9 2024 1, samplePost "s2" "slug-two" 3 2024 0]
          pw.slug = some q ∧ q.id = pw.id :=
  (getPostBySlug_recent_roundtrip sampleAuthor
    [samplePost "s1" "slug-one" 9 2024 1, samplePost "s2" "slug-two" 3 2024 0]
    (by decide) (by decide)).1

/-- C9: construction is a pure function of the fixed seed 123 — whatever
state the shared faker generator carried before the constructor ran, the
resulting author and post collection (ids, slugs, dates and tag sets
included) are identical across runs. -/
theorem mkService_deterministic {σ : Type} (F : FakerOps σ) (r1 r2 : σ) :
    mkService F r1 = mkService F r2 := rfl

/-- C10: `getPageContent` is configured for every page/locale combination —
the lookup never misses, so the `NotFound` arm of the error taxonomy is
unreachable here — and for the `home` page both locales carry a populated
title and subtitle with an empty paragraph array. -/
theorem getPageContent_configured {σ : Type} (F : FakerOps σ) :
    (∀ (p : Page) (l : Locale), (getPageContent F p l).isSome = true) ∧
    (∀ l : Locale, ∃ c : PageContent, getPageContent F Page.home l = some c ∧
      c.content = [] ∧ c.subtitle.isSome = true) := by
  constructor
  · intro p l
    cases p <;> cases l <;> rfl
  · intro l
    cases l <;> exact ⟨_, rfl, rfl, rfl⟩

end Blog
